import Mathlib

/-!
Verification of the commit-history generator in `contribute.py`.

The development shallowly embeds the core of the program — the function
`build_fast_import_stream` (source lines 118-179) together with the
scheduling decisions embedded in its day loop (lines 135-143) — and proves
the testable properties stated in the design document about it.

Modelling conventions:
* Byte strings are `List Nat` of byte values (all literals in the source are
  ASCII, so UTF-8 encoding is the identity on codes).
* A Python naive `datetime` is modelled at whole-second granularity as an
  `Int` counting seconds since 1970-01-01 00:00:00 (local, naive).  The
  microsecond field of the source's `datetime.now()` is not modelled: it is
  dropped by `int(...timestamp())` and invisible to the minute-level
  formatting `%Y-%m-%d %H:%M`, the only two observations of a commit time.
* The ambient random source (`random.randint`) is modelled by an explicit
  list of raw draws threaded through the computation; each call to
  `randint(a, b)` consumes one raw draw `r` and returns `a + r % (b + 1 - a)`,
  which ranges over exactly the inclusive interval `[a, b]` as `r` ranges
  over `Nat`.  An exhausted list returns the lower bound.
* `int(commit_time.timestamp())` converts a naive local datetime to Unix
  seconds by subtracting the local UTC offset; the offset is a parameter
  `tzoff : Int` held fixed for the run (the source uses the process's zone).
* The stream is modelled as the ordered list of protocol records the source
  appends to `parts`, together with a byte-exact renderer `renderStream`
  reproducing the `"\n".join(parts)` serialization.
-/

namespace Contribute

/-- Byte strings: lists of byte values (the source only ever emits ASCII). -/
abbrev Str := List Nat

/-- A Python naive datetime, as whole seconds since 1970-01-01 00:00 local. -/
abbrev DateTime := Int

/-- Calendar day index of a datetime: floor of seconds / 86400
(`Int.ediv` is floor division for the positive divisor 86400). -/
def dayIndex (t : DateTime) : Int := t / 86400

/-- Seconds elapsed since the datetime's midnight, in `[0, 86400)`. -/
def secOfDay (t : DateTime) : Nat := (t % 86400).toNat

/-- The hour field of a datetime (0-23). -/
def hourOf (t : DateTime) : Nat := secOfDay t / 3600

/-- The minute field of a datetime (0-59). -/
def minuteOf (t : DateTime) : Nat := secOfDay t % 3600 / 60

/-- The second field of a datetime (0-59). -/
def secondOf (t : DateTime) : Nat := secOfDay t % 60

/-- Python `d.weekday()`: Monday = 0 .. Sunday = 6.  Day 0 of the model epoch,
1970-01-01, was a Thursday (weekday 3). -/
def weekday (t : DateTime) : Int := (dayIndex t + 3) % 7

/-- Source line 132, `curr_date.replace(hour=20, minute=0)`: set the hour
field to 20 and the minute field to 0.  Python `replace` keeps the remaining
fields, so the second field of `t` is preserved. -/
def replaceHM20 (t : DateTime) : DateTime :=
  86400 * dayIndex t + 20 * 3600 + (secondOf t : Int)

/-- Addition of `timedelta(days = d)`. -/
def addDays (d : Int) (t : DateTime) : DateTime := t + 86400 * d

/-- Addition of `timedelta(minutes = m)`. -/
def addMinutes (m : Nat) (t : DateTime) : DateTime := t + 60 * (m : Int)

/-- Source line 148, `int(commit_time.timestamp())`: Unix seconds of a naive
local datetime, for a run whose local zone has UTC offset `tzoff` seconds. -/
def toTimestamp (tzoff : Int) (t : DateTime) : Int := t - tzoff

/-- Source line 132: `start = curr_date.replace(hour=20, minute=0) -
timedelta(config.days_before)`. -/
def streamStart (days_before : Int) (curr_date : DateTime) : DateTime :=
  addDays (-days_before) (replaceHM20 curr_date)

/-- Model of `random.randint(a, b)` (uniform on the inclusive range
`[a, b]`): consume one raw draw from the list; an empty list yields the
lower bound.  For every raw draw the result lies in `[a, b]`, and every
value of `[a, b]` is realised by some raw draw. -/
def randint (a b : Nat) : List Nat → Nat × List Nat
  | [] => (a, [])
  | r :: rest => (a + r % (b + 1 - a), rest)

/-- The `Config` dataclass (source lines 22-34). -/
structure Config where
  no_weekends : Bool
  max_commits : Int
  frequency : Int
  days_before : Int
  days_after : Int
  repository : Option Str
  user_name : Option Str
  user_email : Option Str
  force : Bool
  append : Bool
deriving DecidableEq

/-- The parent reference carried by the loop variable `parent`
(source line 128, `parent: int | str | None`): a raw pre-existing commit
identifier string, or the mark of a commit created earlier in the stream. -/
inductive ParentRef where
  | external (id : Str)
  | mark (n : Nat)
deriving DecidableEq

/-- One commit record of the fast-import stream (source lines 156-170). -/
structure CommitRecord where
  branch : Str
  mark : Nat
  cname : Str
  cemail : Str
  timestamp : Int
  tzOffset : Str
  msg : Str
  fromRef : Option ParentRef
  blobMark : Nat
  path : Str
deriving DecidableEq

/-- A record of the fast-import stream: a blob record (source line 151) or a
commit record. -/
inductive Record where
  | blob (mark : Nat) (content : Str)
  | commit (c : CommitRecord)
deriving DecidableEq

/-- ASCII bytes of the branch reference literal `refs/heads/main`
(source line 157). -/
def refsHeadsMain : Str :=
  [114, 101, 102, 115, 47, 104, 101, 97, 100, 115, 47, 109, 97, 105, 110]

/-- ASCII bytes of the file path literal `README.md` (source line 170). -/
def readmePath : Str := [82, 69, 65, 68, 77, 69, 46, 109, 100]

/-- UTF-8 bytes of `README_CONTENT` (source line 19). -/
def README_CONTENT : Str :=
  [35, 32, 67, 111, 110, 116, 114, 105, 98, 117, 116, 105, 111, 110, 115, 10,
   10, 71, 101, 110, 101, 114, 97, 116, 101, 100, 32, 99, 111, 110, 116, 114,
   105, 98, 117, 116, 105, 111, 110, 32, 104, 105, 115, 116, 111, 114, 121,
   46, 10]

/-- ASCII bytes of the commit message head `Contribution: ` (source
line 147). -/
def contribHead : Str :=
  [67, 111, 110, 116, 114, 105, 98, 117, 116, 105, 111, 110, 58, 32]

/-- Two-digit zero-padded decimal bytes of `n` (strftime `%m`, `%d`, `%H`,
`%M`; the fields are below 100 for every Python datetime). -/
def pad2 (n : Nat) : Str := [48 + n / 10, 48 + n % 10]

/-- Four-digit decimal bytes of `n` (strftime `%Y` for years 1000-9999). -/
def pad4 (n : Nat) : Str := pad2 (n / 100) ++ pad2 (n % 100)

/-- Gregorian calendar date of a day index (days since 1970-01-01), as
(year, month, day).  This is the standard civil-from-days conversion used by
strftime-style formatting, written with Euclidean division (floor, since all
divisors are positive). -/
def civilFromDays (z0 : Int) : Int × Nat × Nat :=
  let z := z0 + 719468
  let era := z / 146097
  let doe := (z - era * 146097).toNat
  let yoe := (doe - doe / 1460 + doe / 36524 - doe / 146096) / 365
  let doy := doe - (365 * yoe + yoe / 4 - yoe / 100)
  let mp := (5 * doy + 2) / 153
  let d := doy - (153 * mp + 2) / 5 + 1
  let m := if mp < 10 then mp + 3 else mp - 9
  (((yoe : Int) + era * 400) + (if m ≤ 2 then 1 else 0), m, d)

/-- Year field of a datetime. -/
def yearOf (t : DateTime) : Int := (civilFromDays (dayIndex t)).1

/-- Month field of a datetime (1-12). -/
def monthOf (t : DateTime) : Nat := (civilFromDays (dayIndex t)).2.1

/-- Day-of-month field of a datetime (1-31). -/
def domOf (t : DateTime) : Nat := (civilFromDays (dayIndex t)).2.2

/-- Source line 147: the commit message
`f"Contribution: {commit_time:%Y-%m-%d %H:%M}"`, as its UTF-8 bytes
(45 = `-`, 32 = space, 58 = `:`). -/
def contributionMsg (t : DateTime) : Str :=
  contribHead ++ pad4 (yearOf t).toNat ++ [45] ++ pad2 (monthOf t) ++ [45] ++
    pad2 (domOf t) ++ [32] ++ pad2 (hourOf t) ++ [58] ++ pad2 (minuteOf t)

/-- The mutable loop state of `build_fast_import_stream`
(source lines 126-129): accumulated records, next mark, current parent,
commit count, plus the remaining random draws. -/
structure BuildState where
  parts : List Record
  mark : Nat
  parent : Option ParentRef
  count : Nat
  rng : List Nat
deriving DecidableEq

/-- The commit record emitted for slot `k` of a day (source lines 145-170). -/
def mkCommit (cname cemail tzs : Str) (tzoff : Int) (day : DateTime)
    (k : Nat) (mark : Nat) (parent : Option ParentRef) : CommitRecord :=
  { branch := refsHeadsMain
    mark := mark
    cname := cname
    cemail := cemail
    timestamp := toTimestamp tzoff (addMinutes k day)
    tzOffset := tzs
    msg := contributionMsg (addMinutes k day)
    fromRef := parent
    blobMark := mark - 1
    path := readmePath }

/-- One iteration of the inner loop, source lines 145-175: append a blob
record and a commit record, advance the mark counter by two, make the new
commit the current parent, and bump the commit count. -/
def doSlot (cname cemail tzs : Str) (tzoff : Int) (day : DateTime) (k : Nat)
    (st : BuildState) : BuildState :=
  { parts := st.parts ++
      [Record.blob st.mark README_CONTENT,
       Record.commit (mkCommit cname cemail tzs tzoff day k (st.mark + 1) st.parent)]
    mark := st.mark + 2
    parent := some (ParentRef.mark (st.mark + 1))
    count := st.count + 1
    rng := st.rng }

/-- The inner loop `for minute_offset in range(commits_today)` starting at
slot `k` with `n` slots remaining. -/
def doSlots (cname cemail tzs : Str) (tzoff : Int) (day : DateTime) :
    Nat → Nat → BuildState → BuildState
  | _, 0, st => st
  | k, n + 1, st =>
    doSlots cname cemail tzs tzoff day (k + 1) n
      (doSlot cname cemail tzs tzoff day k st)

/-- The scheduling decision for one day, source lines 138-143: weekends are
excluded before any draw when `no_weekends` is set; otherwise one draw in
`[0, 100]` is compared against `frequency` (skip when strictly greater);
otherwise the day's commit count is one draw in
`[1, max(1, min(max_commits, 20))]`.  Returns the day's commit count
(0 = skipped) and the remaining draws. -/
def scheduleDay (cfg : Config) (day : DateTime) (rng : List Nat) :
    Nat × List Nat :=
  if cfg.no_weekends ∧ 5 ≤ weekday day then (0, rng)
  else if cfg.frequency < ((randint 0 100 rng).1 : Int) then
    (0, (randint 0 100 rng).2)
  else randint 1 (max 1 (min cfg.max_commits 20)).toNat (randint 0 100 rng).2

/-- One iteration of the day loop, source lines 135-175, for day offset `d`. -/
def doDay (cfg : Config) (cname cemail tzs : Str) (tzoff : Int)
    (start : DateTime) (d : Nat) (st : BuildState) : BuildState :=
  doSlots cname cemail tzs tzoff (addDays (d : Int) start) 0
    (scheduleDay cfg (addDays (d : Int) start) st.rng).1
    { st with rng := (scheduleDay cfg (addDays (d : Int) start) st.rng).2 }

/-- The day loop `for day_offset in range(days_before + days_after)`,
processing offsets `d, d+1, ..., d+n-1`. -/
def buildDays (cfg : Config) (cname cemail tzs : Str) (tzoff : Int)
    (start : DateTime) : Nat → Nat → BuildState → BuildState
  | _, 0, st => st
  | d, n + 1, st =>
    buildDays cfg cname cemail tzs tzoff start (d + 1) n
      (doDay cfg cname cemail tzs tzoff start d st)

/-- `build_fast_import_stream` (source lines 118-179): the ordered record
list of the produced stream and the emitted commit count.  `parent_commit`
is the optional pre-existing head commit identifier of append mode. -/
def build_fast_import_stream (cfg : Config) (cname cemail tzs : Str)
    (tzoff : Int) (curr_date : DateTime) (parent_commit : Option Str)
    (rng : List Nat) : List Record × Nat :=
  let start := streamStart cfg.days_before curr_date
  let fin := buildDays cfg cname cemail tzs tzoff start 0
    (cfg.days_before + cfg.days_after).toNat
    { parts := [], mark := 1, parent := parent_commit.map ParentRef.external,
      count := 0, rng := rng }
  (fin.parts, fin.count)

/-- The schedule produced by the day loop in isolation (the Schedule
Generator of the design document, the decision loop of source lines
135-143): per-day commit counts for day offsets `d, ..., d+n-1`, threading
the same random draws the full loop consumes. -/
def scheduleFrom (cfg : Config) (start : DateTime) :
    Nat → Nat → List Nat → List Nat × List Nat
  | _, 0, rng => ([], rng)
  | d, n + 1, rng =>
    let sc := scheduleDay cfg (addDays (d : Int) start) rng
    let rest := scheduleFrom cfg start (d + 1) n sc.2
    (sc.1 :: rest.1, rest.2)

/-- The commit records of a stream, in order (blob records dropped). -/
def commitsOf (parts : List Record) : List CommitRecord :=
  parts.filterMap fun r =>
    match r with
    | Record.commit c => some c
    | Record.blob _ _ => none

/-- The commit timestamps of a stream, in emission order. -/
def timesOf (parts : List Record) : List Int :=
  (commitsOf parts).map fun c => c.timestamp

/-- The parent linkage discipline of the stream: the first commit record
carries `p` as its `from` reference and every later commit record carries
the mark of the immediately preceding commit record. -/
def ChainedFrom : Option ParentRef → List CommitRecord → Prop
  | _, [] => True
  | p, c :: rest => c.fromRef = p ∧ ChainedFrom (some (ParentRef.mark c.mark)) rest

/-- The parent reference the loop variable holds after emitting `cs`:
the mark of the last commit of `cs`, or the initial reference `p` when no
commit has been emitted yet. -/
def lastParent (p : Option ParentRef) (cs : List CommitRecord) :
    Option ParentRef :=
  match cs.getLast? with
  | some c => some (ParentRef.mark c.mark)
  | none => p

/-- Decimal digit bytes of a natural number (Python `str` of an `int`). -/
def natDigits (n : Nat) : Str :=
  if h : n < 10 then [48 + n]
  else natDigits (n / 10) ++ [48 + n % 10]
decreasing_by exact Nat.div_lt_self (by omega) (by omega)

/-- Decimal bytes of an integer, with a leading `-` (45) when negative. -/
def intDigits (i : Int) : Str :=
  if i < 0 then 45 :: natDigits i.natAbs else natDigits i.natAbs

/-- Join byte strings with a separating newline (`"\n".join`). -/
def joinNL : List Str → Str
  | [] => []
  | [s] => s
  | s :: rest => s ++ 10 :: joinNL rest

/-- Serialization of one record, byte for byte as the source formats it
(blob: line 151; commit: lines 156-171). -/
def renderRecord : Record → Str
  | Record.blob m content =>
    [98, 108, 111, 98, 10] ++ [109, 97, 114, 107, 32, 58] ++ natDigits m ++
      [10] ++ [100, 97, 116, 97, 32] ++ natDigits content.length ++ [10] ++
      content
  | Record.commit c =>
    joinNL
      ([[99, 111, 109, 109, 105, 116, 32] ++ c.branch,
        [109, 97, 114, 107, 32, 58] ++ natDigits c.mark,
        [99, 111, 109, 109, 105, 116, 116, 101, 114, 32] ++ c.cname ++
          [32, 60] ++ c.cemail ++ [62, 32] ++ intDigits c.timestamp ++
          [32] ++ c.tzOffset,
        [100, 97, 116, 97, 32] ++ natDigits c.msg.length,
        c.msg] ++
       (match c.fromRef with
        | none => []
        | some (ParentRef.external id) => [[102, 114, 111, 109, 32] ++ id]
        | some (ParentRef.mark n) =>
          [[102, 114, 111, 109, 32, 58] ++ natDigits n]) ++
       [[77, 32, 49, 48, 48, 54, 52, 52, 32, 58] ++ natDigits c.blobMark ++
          [32] ++ readmePath ++ [10]])

/-- Source line 179, `"\n".join(parts)`: the full serialized stream. -/
def renderStream (parts : List Record) : Str := joinNL (parts.map renderRecord)

/-- Python truthiness of a string (source line 70, `if stream:`): true
exactly when non-empty. -/
def streamTruthy (s : Str) : Bool := !s.isEmpty

/-- Model of the import-step decision in `main` (source lines 70-72): the
bulk-import sink is invoked exactly when the built stream is truthy. -/
def mainRunsImport (stream : Str) : Bool := streamTruthy stream

/-- Decimal digit parsing: byte of a decimal digit to its value. -/
def parseDigit (b : Nat) : Option Nat :=
  if 48 ≤ b ∧ b ≤ 57 then some (b - 48) else none

/-- Read exactly two decimal digit bytes. -/
def parse2 : Str → Option (Nat × Str)
  | a :: b :: rest =>
    match parseDigit a, parseDigit b with
    | some x, some y => some (10 * x + y, rest)
    | _, _ => none
  | _ => none

/-- Read exactly four decimal digit bytes. -/
def parse4 (s : Str) : Option (Nat × Str) :=
  match parse2 s with
  | some (hi, rest) =>
    match parse2 rest with
    | some (lo, rest2) => some (100 * hi + lo, rest2)
    | none => none
  | none => none

/-- Expect the literal `l` at the head of `s` and return the remainder. -/
def dropLit : Str → Str → Option Str
  | [], s => some s
  | _ :: _, [] => none
  | l :: ls, c :: cs => if c = l then dropLit ls cs else none

/-- Expect one byte `b` at the head of `s`. -/
def expectByte (b : Nat) : Str → Option Str
  | [] => none
  | c :: rest => if c = b then some rest else none

/-- Parse a commit message of the shape
`Contribution: YYYY-MM-DD HH:MM` back into its calendar-minute fields. -/
def parseContribMsg (s : Str) : Option (Nat × Nat × Nat × Nat × Nat) :=
  match dropLit contribHead s with
  | none => none
  | some s1 =>
    match parse4 s1 with
    | none => none
    | some (y, s2) =>
      match expectByte 45 s2 with
      | none => none
      | some s3 =>
        match parse2 s3 with
        | none => none
        | some (mo, s4) =>
          match expectByte 45 s4 with
          | none => none
          | some s5 =>
            match parse2 s5 with
            | none => none
            | some (d, s6) =>
              match expectByte 32 s6 with
              | none => none
              | some s7 =>
                match parse2 s7 with
                | none => none
                | some (h, s8) =>
                  match expectByte 58 s8 with
                  | none => none
                  | some s9 =>
                    match parse2 s9 with
                    | some (mi, []) => some (y, mo, d, h, mi)
                    | _ => none

/-- The calendar minute of a datetime: (year, month, day, hour, minute), the
exact fields `%Y-%m-%d %H:%M` displays. -/
def minuteKey (t : DateTime) : Nat × Nat × Nat × Nat × Nat :=
  ((yearOf t).toNat, monthOf t, domOf t, hourOf t, minuteOf t)

/-- Modelled from the spec: the commit time the specification describes for
slot `k` of day offset `d` — the day's anchor with the time of day fixed at
exactly 20:00:00, plus `k` minutes.  (The specification's Stream Builder
section; used to compare the specified commit time against the one the
source computes.) -/
def specSlotTime (curr_date : DateTime) (days_before : Int) (d k : Nat) :
    Int :=
  86400 * (dayIndex curr_date - days_before + d) + 20 * 3600 + 60 * k

/-- A sample configuration that only requests one day in the range; the
individual fields are overridden where a statement needs other values. -/
def baseCfg : Config :=
  { no_weekends := false, max_commits := 10, frequency := 80,
    days_before := 1, days_after := 0, repository := none,
    user_name := none, user_email := none, force := false, append := false }

/-- The example configuration of the design document's example scenario:
`{skip_weekends: true, max_commits_per_day: 3, frequency_percent: 100,
days_before: 7, days_after: 0}`. -/
def exampleCfg : Config :=
  { no_weekends := true, max_commits := 3, frequency := 100,
    days_before := 7, days_after := 0, repository := none,
    user_name := none, user_email := none, force := false, append := false }

/-- The loop invariant tying the builder state to the commit records it has
emitted: the records are chained from the initial parent reference `p0`, the
current `parent` variable holds the last commit's mark (or `p0` before any
commit), and `count` counts the commit records. -/
def ChainInv (p0 : Option ParentRef) (st : BuildState) : Prop :=
  ChainedFrom p0 (commitsOf st.parts) ∧
    st.parent = lastParent p0 (commitsOf st.parts) ∧
    st.count = (commitsOf st.parts).length

/-- Shape facts holding of every emitted commit record: it targets
`refs/heads/main`, modifies `README.md`, and its message is the formatted
commit time — the naive local time recovered from the record's Unix
timestamp by adding back the run's UTC offset. -/
def shapeOk (tzoff : Int) (c : CommitRecord) : Prop :=
  c.branch = refsHeadsMain ∧ c.path = readmePath ∧
    c.msg = contributionMsg (c.timestamp + tzoff)

/-- All commit timestamps of the record list are strictly increasing (in
emission order) and lie strictly below the bound `B`. -/
def SortedBelow (B : Int) (parts : List Record) : Prop :=
  List.Pairwise (· < ·) (timesOf parts) ∧ ∀ x ∈ timesOf parts, x < B

/-- The per-day schedule of the example scenario: the 7-day range of
`exampleCfg` starting `days_before = 7` days before "now". -/
def exampleSchedule (curr_date : DateTime) (rng : List Nat) : List Nat :=
  (scheduleFrom exampleCfg (streamStart 7 curr_date) 0 7 rng).1

/-- The record list of a run of `build_fast_import_stream`. -/
def builtParts (cfg : Config) (cname cemail tzs : Str) (tzoff : Int)
    (curr_date : DateTime) (parent_commit : Option Str) (rng : List Nat) :
    List Record :=
  (build_fast_import_stream cfg cname cemail tzs tzoff curr_date
    parent_commit rng).1

/-- The commit count of a run of `build_fast_import_stream` (the `N` of the
progress message at source line 178). -/
def builtCount (cfg : Config) (cname cemail tzs : Str) (tzoff : Int)
    (curr_date : DateTime) (parent_commit : Option Str) (rng : List Nat) :
    Nat :=
  (build_fast_import_stream cfg cname cemail tzs tzoff curr_date
    parent_commit rng).2

/-- The commit records of a run, in emission order. -/
def builtCommits (cfg : Config) (cname cemail tzs : Str) (tzoff : Int)
    (curr_date : DateTime) (parent_commit : Option Str) (rng : List Nat) :
    List CommitRecord :=
  commitsOf (builtParts cfg cname cemail tzs tzoff curr_date parent_commit rng)

/-! ### Sanity checks of the calendar conversion -/

/-- Day 0 of the epoch is 1970-01-01. -/
theorem civilFromDays_epoch : civilFromDays 0 = (1970, 1, 1) := by decide

/-- Day 19675 is 2023-11-14. -/
theorem civilFromDays_nov2023 : civilFromDays 19675 = (2023, 11, 14) := by
  decide

/-- Day -1 is 1969-12-31. -/
theorem civilFromDays_neg : civilFromDays (-1) = (1969, 12, 31) := by decide

/-- Day 19782 is the leap day 2024-02-29. -/
theorem civilFromDays_leap : civilFromDays 19782 = (2024, 2, 29) := by decide

/-! ### Bounds of the random draws and of the schedule -/

/-- Every result of `randint a b` lies in the inclusive range `[a, b]`. -/
theorem randint_mem (a b : Nat) (h : a ≤ b) (rng : List Nat) :
    a ≤ (randint a b rng).1 ∧ (randint a b rng).1 ≤ b := by
  cases rng with
  | nil => simpa [randint] using h
  | cons r rest =>
    have hlt : r % (b + 1 - a) < b + 1 - a := Nat.mod_lt _ (by omega)
    simp only [randint]
    omega

/-- The clamped per-day maximum `max(1, min(config.max_commits, 20))`
always lies in `[1, 20]` after `toNat`. -/
theorem clamp_bounds (mc : Int) :
    1 ≤ (max 1 (min mc 20)).toNat ∧ (max 1 (min mc 20)).toNat ≤ 20 := by
  omega

/-- A scheduled day count is either 0 (skipped) or a `randint` draw in
`[1, max(1, min(max_commits, 20))]`. -/
theorem scheduleDay_cases (cfg : Config) (day : DateTime) (rng : List Nat) :
    (scheduleDay cfg day rng).1 = 0 ∨
      (1 ≤ (scheduleDay cfg day rng).1 ∧
        (scheduleDay cfg day rng).1 ≤ (max 1 (min cfg.max_commits 20)).toNat) := by
  unfold scheduleDay
  split
  · left; rfl
  · split
    · left; rfl
    · right
      exact randint_mem 1 _ (clamp_bounds cfg.max_commits).1 _

/-- A scheduled day count never exceeds 20. -/
theorem scheduleDay_le_20 (cfg : Config) (day : DateTime) (rng : List Nat) :
    (scheduleDay cfg day rng).1 ≤ 20 := by
  rcases scheduleDay_cases cfg day rng with h | h
  · omega
  · have := (clamp_bounds cfg.max_commits).2
    omega

/-! ### Claim theorems: schedule-level claims -/

/-- C1: the claim states that `frequency_percent = 0` makes the frequency
roll skip every day.  The code at line 140 skips a day only when the draw in
`[0, 100]` strictly exceeds `frequency`, so a draw of exactly 0 is not
skipped at `frequency = 0` and the day receives a commit count of at least
one.  This theorem evaluates the scheduler at that failing input: with
`frequency = 0`, a weekday, and raw draws `(0, 0)`, the scheduled count is 1,
not 0 (while the documented meaning of the flag is 0 percent of days). -/
theorem claim_C1_freq_zero_day_scheduled :
    (scheduleDay { baseCfg with frequency := 0 } 0 [0, 0]).1 = 1 ∧
      (1 : Nat) ≠ 0 := by
  constructor
  · decide
  · decide

/-- C3: the scheduler never emits a day count above 20, for every
configuration (including `max_commits` above 20 with validation bypassed);
and for a valid configuration (`1 ≤ max_commits ≤ 20`) every non-skipped
day's count lies in `[1, max_commits]`. -/
theorem claim_C3_count_clamp (cfg : Config) (day : DateTime)
    (rng : List Nat) :
    (scheduleDay cfg day rng).1 ≤ 20 ∧
      (1 ≤ cfg.max_commits → cfg.max_commits ≤ 20 →
        (scheduleDay cfg day rng).1 = 0 ∨
          (1 ≤ (scheduleDay cfg day rng).1 ∧
            ((scheduleDay cfg day rng).1 : Int) ≤ cfg.max_commits)) := by
  refine ⟨scheduleDay_le_20 cfg day rng, fun h1 h20 => ?_⟩
  rcases scheduleDay_cases cfg day rng with h | h
  · exact Or.inl h
  · right
    refine ⟨h.1, ?_⟩
    have hub := h.2
    omega

/-- Witness for C3 at a concrete input: `max_commits = 25` is still clamped,
and a valid `max_commits = 3` stays within `[1, 3]`. -/
theorem claim_C3_count_clamp_witness :
    (scheduleDay { baseCfg with max_commits := 25 } 0 [0, 99]).1 ≤ 20 ∧
      ((1 : Int) ≤ 3 ∧
        ((scheduleDay { baseCfg with max_commits := 3 } 0 [0, 5]).1 = 0 ∨
          (1 ≤ (scheduleDay { baseCfg with max_commits := 3 } 0 [0, 5]).1 ∧
            ((scheduleDay { baseCfg with max_commits := 3 } 0 [0, 5]).1 : Int) ≤ 3))) :=
  ⟨(claim_C3_count_clamp { baseCfg with max_commits := 25 } 0 [0, 99]).1,
    by decide,
    (claim_C3_count_clamp { baseCfg with max_commits := 3 } 0 [0, 5]).2
      (by decide) (by decide)⟩

/-- C6: with `skip_weekends` set, a Saturday or Sunday (weekday at least 5)
is excluded before the frequency roll: the scheduled count is 0, no random
draw is consumed, and the whole day-loop iteration leaves the builder state
untouched — for every configuration, so regardless of `frequency_percent`. -/
theorem claim_C6_weekend_exclusion (cfg : Config) (cname cemail tzs : Str)
    (tzoff : Int) (start : DateTime) (d : Nat) (st : BuildState)
    (hnw : cfg.no_weekends = true)
    (hw : 5 ≤ weekday (addDays (d : Int) start)) :
    scheduleDay cfg (addDays (d : Int) start) st.rng = (0, st.rng) ∧
      doDay cfg cname cemail tzs tzoff start d st = st := by
  have hsched : scheduleDay cfg (addDays (d : Int) start) st.rng =
      (0, st.rng) := by
    unfold scheduleDay
    rw [if_pos ⟨hnw, hw⟩]
  refine ⟨hsched, ?_⟩
  unfold doDay
  rw [hsched]
  rfl

/-- Witness for C6: day offset 2 from the epoch (1970-01-03) is a Saturday
and is excluded without consuming the pending draws. -/
theorem claim_C6_weekend_exclusion_witness :
    scheduleDay { baseCfg with no_weekends := true } (addDays ((2 : Nat) : Int) 0)
        (BuildState.mk [] 1 none 0 [7, 8]).rng =
      (0, (BuildState.mk [] 1 none 0 [7, 8]).rng) ∧
      doDay { baseCfg with no_weekends := true } [97] [98] [43] 0 0 2
        (BuildState.mk [] 1 none 0 [7, 8]) =
        BuildState.mk [] 1 none 0 [7, 8] :=
  claim_C6_weekend_exclusion { baseCfg with no_weekends := true }
    [97] [98] [43] 0 0 2 (BuildState.mk [] 1 none 0 [7, 8])
    (by decide) (by decide)

/-! ### The parent-chain invariant of the builder loop -/

theorem commitsOf_append (xs ys : List Record) :
    commitsOf (xs ++ ys) = commitsOf xs ++ commitsOf ys := by
  simp [commitsOf, List.filterMap_append]

theorem commitsOf_doSlot (cname cemail tzs : Str) (tzoff : Int)
    (day : DateTime) (k : Nat) (st : BuildState) :
    commitsOf (doSlot cname cemail tzs tzoff day k st).parts =
      commitsOf st.parts ++
        [mkCommit cname cemail tzs tzoff day k (st.mark + 1) st.parent] := by
  simp [doSlot, commitsOf_append]
  rfl

theorem lastParent_cons (p : Option ParentRef) (c : CommitRecord)
    (cs : List CommitRecord) :
    lastParent p (c :: cs) = lastParent (some (ParentRef.mark c.mark)) cs := by
  cases cs with
  | nil => simp [lastParent]
  | cons d rest =>
    cases hl : (d :: rest).getLast? with
    | none => exact absurd (List.getLast?_eq_none_iff.mp hl) (by simp)
    | some x => simp [lastParent, List.getLast?_cons_cons, hl]

theorem lastParent_snoc (p : Option ParentRef) (cs : List CommitRecord)
    (c : CommitRecord) :
    lastParent p (cs ++ [c]) = some (ParentRef.mark c.mark) := by
  simp [lastParent]

theorem chained_snoc (p : Option ParentRef) (cs : List CommitRecord)
    (c : CommitRecord) (h : ChainedFrom p cs)
    (hc : c.fromRef = lastParent p cs) : ChainedFrom p (cs ++ [c]) := by
  induction cs generalizing p with
  | nil =>
    exact ⟨by simpa [lastParent] using hc, trivial⟩
  | cons d rest ih =>
    refine ⟨h.1, ih _ h.2 ?_⟩
    rw [hc, lastParent_cons]

theorem chainInv_doSlot (p0 : Option ParentRef) (cname cemail tzs : Str)
    (tzoff : Int) (day : DateTime) (k : Nat) (st : BuildState)
    (h : ChainInv p0 st) :
    ChainInv p0 (doSlot cname cemail tzs tzoff day k st) := by
  obtain ⟨hch, hpar, hcnt⟩ := h
  refine ⟨?_, ?_, ?_⟩
  · rw [commitsOf_doSlot]
    exact chained_snoc _ _ _ hch (by simpa [mkCommit] using hpar)
  · rw [commitsOf_doSlot, lastParent_snoc]
    rfl
  · rw [commitsOf_doSlot]
    simp [doSlot, hcnt]

theorem chainInv_doSlots (p0 : Option ParentRef) (cname cemail tzs : Str)
    (tzoff : Int) (day : DateTime) (n k : Nat) (st : BuildState)
    (h : ChainInv p0 st) :
    ChainInv p0 (doSlots cname cemail tzs tzoff day k n st) := by
  induction n generalizing k st with
  | zero => exact h
  | succ m ih => exact ih (k + 1) _ (chainInv_doSlot p0 _ _ _ _ _ _ _ h)

theorem chainInv_doDay (p0 : Option ParentRef) (cfg : Config)
    (cname cemail tzs : Str) (tzoff : Int) (start : DateTime) (d : Nat)
    (st : BuildState) (h : ChainInv p0 st) :
    ChainInv p0 (doDay cfg cname cemail tzs tzoff start d st) := by
  unfold doDay
  exact chainInv_doSlots p0 _ _ _ _ _ _ _ _ h

theorem chainInv_buildDays (p0 : Option ParentRef) (cfg : Config)
    (cname cemail tzs : Str) (tzoff : Int) (start : DateTime) (n d : Nat)
    (st : BuildState) (h : ChainInv p0 st) :
    ChainInv p0 (buildDays cfg cname cemail tzs tzoff start d n st) := by
  induction n generalizing d st with
  | zero => exact h
  | succ m ih => exact ih (d + 1) _ (chainInv_doDay p0 _ _ _ _ _ _ _ _ h)

theorem chainInv_build (cfg : Config) (cname cemail tzs : Str) (tzoff : Int)
    (curr_date : DateTime) (parent_commit : Option Str) (rng : List Nat) :
    ChainInv (parent_commit.map ParentRef.external)
      ⟨(build_fast_import_stream cfg cname cemail tzs tzoff curr_date
          parent_commit rng).1,
        0, lastParent (parent_commit.map ParentRef.external)
          (commitsOf (build_fast_import_stream cfg cname cemail tzs tzoff
            curr_date parent_commit rng).1),
        (build_fast_import_stream cfg cname cemail tzs tzoff curr_date
          parent_commit rng).2, []⟩ := by
  have h0 : ChainInv (parent_commit.map ParentRef.external)
      { parts := [], mark := 1,
        parent := parent_commit.map ParentRef.external, count := 0,
        rng := rng } := by
    refine ⟨trivial, ?_, rfl⟩
    simp [commitsOf, lastParent]
  have hinv := chainInv_buildDays (parent_commit.map ParentRef.external) cfg
    cname cemail tzs tzoff (streamStart cfg.days_before curr_date)
    (cfg.days_before + cfg.days_after).toNat 0 _ h0
  obtain ⟨hch, hpar, hcnt⟩ := hinv
  exact ⟨hch, rfl, hcnt⟩

/-- The first commit of a chained record list carries the initial parent
reference. -/
theorem chained_head (p : Option ParentRef) (cs : List CommitRecord)
    (h : ChainedFrom p cs) (hne : 0 < cs.length) :
    (cs.get ⟨0, hne⟩).fromRef = p := by
  cases cs with
  | nil => simp at hne
  | cons c rest => exact h.1

/-- Every later commit of a chained record list carries the mark of the
immediately preceding commit record. -/
theorem chained_succ (p : Option ParentRef) (cs : List CommitRecord)
    (h : ChainedFrom p cs) :
    ∀ i (hi : i + 1 < cs.length),
      (cs.get ⟨i + 1, hi⟩).fromRef =
        some (ParentRef.mark ((cs.get ⟨i, by omega⟩).mark)) := by
  induction cs generalizing p with
  | nil => intro i hi; simp at hi
  | cons c rest ih =>
    intro i hi
    cases i with
    | zero =>
      have hr : 0 < rest.length := by
        simpa using hi
      simpa using chained_head _ rest h.2 hr
    | succ j =>
      have hj : j + 1 < rest.length := by
        simpa using hi
      simpa using ih _ h.2 j hj

/-! ### Claim theorems: chain integrity and append chaining -/

/-- C2: for a run with no pre-existing parent, the stream holds exactly `N`
commit records where `N` is the emitted total, the first commit record has
no `from` reference, and every later commit record's `from` reference is the
mark of the immediately preceding commit record. -/
theorem claim_C2_chain_integrity (cfg : Config) (cname cemail tzs : Str)
    (tzoff : Int) (curr_date : DateTime) (rng : List Nat) :
    (builtCommits cfg cname cemail tzs tzoff curr_date none rng).length =
        builtCount cfg cname cemail tzs tzoff curr_date none rng ∧
      (∀ h0 : 0 < (builtCommits cfg cname cemail tzs tzoff curr_date none
          rng).length,
        ((builtCommits cfg cname cemail tzs tzoff curr_date none rng).get
          ⟨0, h0⟩).fromRef = none) ∧
      (∀ i (hi : i + 1 < (builtCommits cfg cname cemail tzs tzoff curr_date
          none rng).length),
        ((builtCommits cfg cname cemail tzs tzoff curr_date none rng).get
            ⟨i + 1, hi⟩).fromRef =
          some (ParentRef.mark
            (((builtCommits cfg cname cemail tzs tzoff curr_date none
              rng).get ⟨i, by omega⟩).mark))) := by
  obtain ⟨hch, _, hcnt⟩ :=
    chainInv_build cfg cname cemail tzs tzoff curr_date none rng
  exact ⟨hcnt.symm, fun h0 => chained_head _ _ hch h0,
    fun i hi => chained_succ _ _ hch i hi⟩

/-- Witness for C2: a concrete one-day run with no parent emits one commit
record, equal in number to the reported count, whose `from` reference is
absent. -/
theorem claim_C2_chain_integrity_witness :
    (builtCommits baseCfg [97] [98] [43] 0 0 none []).length =
        builtCount baseCfg [97] [98] [43] 0 0 none [] ∧
      ((builtCommits baseCfg [97] [98] [43] 0 0 none []).get
        ⟨0, by decide⟩).fromRef = none :=
  ⟨(claim_C2_chain_integrity baseCfg [97] [98] [43] 0 0 []).1,
    (claim_C2_chain_integrity baseCfg [97] [98] [43] 0 0 []).2.1 (by decide)⟩

/-- C4: for a run whose pre-existing parent is the external commit
identifier `id`, the first emitted commit record's `from` reference is
exactly that raw identifier (not a mark), and every later commit record's
`from` reference is a mark — the mark of the immediately preceding commit
record. -/
theorem claim_C4_append_chaining (cfg : Config) (cname cemail tzs : Str)
    (tzoff : Int) (curr_date : DateTime) (id : Str) (rng : List Nat) :
    (∀ h0 : 0 < (builtCommits cfg cname cemail tzs tzoff curr_date (some id)
        rng).length,
      ((builtCommits cfg cname cemail tzs tzoff curr_date (some id)
        rng).get ⟨0, h0⟩).fromRef = some (ParentRef.external id)) ∧
      (∀ i (hi : i + 1 < (builtCommits cfg cname cemail tzs tzoff curr_date
          (some id) rng).length),
        ((builtCommits cfg cname cemail tzs tzoff curr_date (some id)
            rng).get ⟨i + 1, hi⟩).fromRef =
          some (ParentRef.mark
            (((builtCommits cfg cname cemail tzs tzoff curr_date (some id)
              rng).get ⟨i, by omega⟩).mark))) := by
  obtain ⟨hch, _, _⟩ :=
    chainInv_build cfg cname cemail tzs tzoff curr_date (some id) rng
  exact ⟨fun h0 => chained_head _ _ hch h0,
    fun i hi => chained_succ _ _ hch i hi⟩

/-- Witness for C4: a concrete two-day run appended onto the external
identifier `[100, 101]`: the first commit's `from` reference is the raw
identifier and the second commit's `from` reference is the first commit's
mark. -/
theorem claim_C4_append_chaining_witness :
    ((builtCommits { baseCfg with days_before := 2 } [97] [98] [43] 0 0
        (some [100, 101]) []).get ⟨0, by decide⟩).fromRef =
      some (ParentRef.external [100, 101]) ∧
      ((builtCommits { baseCfg with days_before := 2 } [97] [98] [43] 0 0
          (some [100, 101]) []).get ⟨1, by decide⟩).fromRef =
        some (ParentRef.mark
          (((builtCommits { baseCfg with days_before := 2 } [97] [98] [43] 0 0
            (some [100, 101]) []).get ⟨0, by decide⟩).mark)) :=
  ⟨(claim_C4_append_chaining { baseCfg with days_before := 2 } [97] [98] [43]
      0 0 [100, 101] []).1 (by decide),
    (claim_C4_append_chaining { baseCfg with days_before := 2 } [97] [98] [43]
      0 0 [100, 101] []).2 0 (by decide)⟩

/-! ### The shape invariant of emitted commit records -/

theorem shapeOk_mkCommit (cname cemail tzs : Str) (tzoff : Int)
    (day : DateTime) (k mark : Nat) (parent : Option ParentRef) :
    shapeOk tzoff (mkCommit cname cemail tzs tzoff day k mark parent) := by
  refine ⟨rfl, rfl, ?_⟩
  show contributionMsg (addMinutes k day) =
    contributionMsg (toTimestamp tzoff (addMinutes k day) + tzoff)
  simp [toTimestamp]

theorem shapeInv_doSlot (cname cemail tzs : Str) (tzoff : Int)
    (day : DateTime) (k : Nat) (st : BuildState)
    (h : ∀ c ∈ commitsOf st.parts, shapeOk tzoff c) :
    ∀ c ∈ commitsOf (doSlot cname cemail tzs tzoff day k st).parts,
      shapeOk tzoff c := by
  intro c hc
  rw [commitsOf_doSlot] at hc
  rcases List.mem_append.mp hc with hold | hnew
  · exact h c hold
  · rw [List.mem_singleton.mp hnew]
    exact shapeOk_mkCommit cname cemail tzs tzoff day k (st.mark + 1) st.parent

theorem shapeInv_doSlots (cname cemail tzs : Str) (tzoff : Int)
    (day : DateTime) (n k : Nat) (st : BuildState)
    (h : ∀ c ∈ commitsOf st.parts, shapeOk tzoff c) :
    ∀ c ∈ commitsOf (doSlots cname cemail tzs tzoff day k n st).parts,
      shapeOk tzoff c := by
  induction n generalizing k st with
  | zero => exact h
  | succ m ih => exact ih (k + 1) _ (shapeInv_doSlot _ _ _ _ _ _ _ h)

theorem shapeInv_buildDays (cfg : Config) (cname cemail tzs : Str)
    (tzoff : Int) (start : DateTime) (n d : Nat) (st : BuildState)
    (h : ∀ c ∈ commitsOf st.parts, shapeOk tzoff c) :
    ∀ c ∈ commitsOf (buildDays cfg cname cemail tzs tzoff start d n
        st).parts, shapeOk tzoff c := by
  induction n generalizing d st with
  | zero => exact h
  | succ m ih =>
    exact ih (d + 1) _ (shapeInv_doSlots _ _ _ _ _ _ _ _ h)

theorem shapeInv_build (cfg : Config) (cname cemail tzs : Str) (tzoff : Int)
    (curr_date : DateTime) (parent_commit : Option Str) (rng : List Nat) :
    ∀ c ∈ builtCommits cfg cname cemail tzs tzoff curr_date parent_commit
      rng, shapeOk tzoff c := by
  intro c hc
  exact shapeInv_buildDays cfg cname cemail tzs tzoff
    (streamStart cfg.days_before curr_date)
    (cfg.days_before + cfg.days_after).toNat 0 _
    (by intro c hc; simp [commitsOf] at hc) c hc

/-! ### Stream size bookkeeping -/

theorem doSlots_succ (cname cemail tzs : Str) (tzoff : Int) (day : DateTime)
    (k n : Nat) (st : BuildState) :
    doSlots cname cemail tzs tzoff day k (n + 1) st =
      doSlots cname cemail tzs tzoff day (k + 1) n
        (doSlot cname cemail tzs tzoff day k st) := rfl

theorem buildDays_succ (cfg : Config) (cname cemail tzs : Str) (tzoff : Int)
    (start : DateTime) (d n : Nat) (st : BuildState) :
    buildDays cfg cname cemail tzs tzoff start d (n + 1) st =
      buildDays cfg cname cemail tzs tzoff start (d + 1) n
        (doDay cfg cname cemail tzs tzoff start d st) := rfl

theorem doSlots_size (cname cemail tzs : Str) (tzoff : Int) (day : DateTime)
    (n k : Nat) (st : BuildState) :
    (doSlots cname cemail tzs tzoff day k n st).parts.length + 2 * st.count =
      st.parts.length + 2 * (doSlots cname cemail tzs tzoff day k n st).count := by
  induction n generalizing k st with
  | zero => rfl
  | succ m ih =>
    have hstep := ih (k + 1) (doSlot cname cemail tzs tzoff day k st)
    have hlen : (doSlot cname cemail tzs tzoff day k st).parts.length =
        st.parts.length + 2 := by
      simp [doSlot]
    have hcnt : (doSlot cname cemail tzs tzoff day k st).count =
        st.count + 1 := rfl
    rw [doSlots_succ]
    omega

theorem doDay_size (cfg : Config) (cname cemail tzs : Str) (tzoff : Int)
    (start : DateTime) (d : Nat) (st : BuildState) :
    (doDay cfg cname cemail tzs tzoff start d st).parts.length +
        2 * st.count =
      st.parts.length +
        2 * (doDay cfg cname cemail tzs tzoff start d st).count := by
  have h := doSlots_size cname cemail tzs tzoff (addDays (d : Int) start)
    (scheduleDay cfg (addDays (d : Int) start) st.rng).1 0
    { st with rng := (scheduleDay cfg (addDays (d : Int) start) st.rng).2 }
  simpa [doDay] using h

theorem buildDays_size (cfg : Config) (cname cemail tzs : Str) (tzoff : Int)
    (start : DateTime) (n d : Nat) (st : BuildState) :
    (buildDays cfg cname cemail tzs tzoff start d n st).parts.length +
        2 * st.count =
      st.parts.length +
        2 * (buildDays cfg cname cemail tzs tzoff start d n st).count := by
  induction n generalizing d st with
  | zero => rfl
  | succ m ih =>
    have hstep := ih (d + 1) (doDay cfg cname cemail tzs tzoff start d st)
    have hday := doDay_size cfg cname cemail tzs tzoff start d st
    rw [buildDays_succ]
    omega

theorem build_size (cfg : Config) (cname cemail tzs : Str) (tzoff : Int)
    (curr_date : DateTime) (parent_commit : Option Str) (rng : List Nat) :
    (builtParts cfg cname cemail tzs tzoff curr_date parent_commit
        rng).length =
      2 * builtCount cfg cname cemail tzs tzoff curr_date parent_commit
        rng := by
  have h := buildDays_size cfg cname cemail tzs tzoff
    (streamStart cfg.days_before curr_date)
    (cfg.days_before + cfg.days_after).toNat 0
    { parts := [], mark := 1, parent := parent_commit.map ParentRef.external,
      count := 0, rng := rng }
  simpa [builtParts, builtCount, build_fast_import_stream] using h

/-! ### Claim theorems: empty-range idempotence -/

/-- C7: a run that schedules zero commits produces an empty record list,
whose serialization is the empty string, so the caller's truthiness check
(`if stream:`) skips the bulk-import sink; in particular a range of
`days_before = 0, days_after = 0` always emits zero commits. -/
theorem claim_C7_empty_stream (cfg : Config) (cname cemail tzs : Str)
    (tzoff : Int) (curr_date : DateTime) (parent_commit : Option Str)
    (rng : List Nat) :
    (builtCount cfg cname cemail tzs tzoff curr_date parent_commit rng = 0 →
      builtParts cfg cname cemail tzs tzoff curr_date parent_commit rng =
          [] ∧
        renderStream (builtParts cfg cname cemail tzs tzoff curr_date
          parent_commit rng) = [] ∧
        mainRunsImport (renderStream (builtParts cfg cname cemail tzs tzoff
          curr_date parent_commit rng)) = false) ∧
      (cfg.days_before = 0 → cfg.days_after = 0 →
        builtCount cfg cname cemail tzs tzoff curr_date parent_commit rng =
          0) := by
  constructor
  · intro h0
    have hlen := build_size cfg cname cemail tzs tzoff curr_date
      parent_commit rng
    rw [h0] at hlen
    have hnil : builtParts cfg cname cemail tzs tzoff curr_date
        parent_commit rng = [] := by
      exact List.length_eq_zero.mp (by omega)
    refine ⟨hnil, ?_, ?_⟩
    · rw [hnil]; rfl
    · rw [hnil]; rfl
  · intro hdb hda
    simp [builtCount, build_fast_import_stream, hdb, hda]
    rfl

/-- Witness for C7: the empty range `days_before = days_after = 0` yields the
empty record list, the empty serialized stream, and a skipped import. -/
theorem claim_C7_empty_stream_witness :
    builtParts { baseCfg with days_before := 0 } [97] [98] [43] 0 0 none [] =
        [] ∧
      renderStream (builtParts { baseCfg with days_before := 0 } [97] [98]
        [43] 0 0 none []) = [] ∧
      mainRunsImport (renderStream (builtParts { baseCfg with
        days_before := 0 } [97] [98] [43] 0 0 none [])) = false :=
  (claim_C7_empty_stream { baseCfg with days_before := 0 } [97] [98] [43] 0 0
    none []).1
    ((claim_C7_empty_stream { baseCfg with days_before := 0 } [97] [98] [43]
      0 0 none []).2 (by decide) (by decide))

/-! ### Claim theorems: the commit slot times -/

/-- C5 counterexample: the claim as stated fixes the day's anchor time at
exactly 20:00:00 local, but `replace(hour=20, minute=0)` keeps the second
field of "now".  For a run at 1970-01-01 00:00:30 local with
`days_before = 0`, slot 0 of day offset 0 falls at 20:00:30 (72030 seconds),
not at the specified 20:00:00 (72000 seconds). -/
theorem claim_C5_counterexample :
    addMinutes 0 (addDays ((0 : Nat) : Int) (streamStart 0 30)) ≠
      specSlotTime 30 0 0 0 := by
  decide

/-- C5 (amended): the commit time of slot `k` on day offset `d` is the
spec's anchored time (20:00:00 of the day `days_before` days before "now"
plus `d` days, plus `k` minutes) shifted by the second field of "now", which
`replace(hour=20, minute=0)` preserves.  Commits within a day are exactly
one minute apart, and at minute granularity they start at 20:00: for every
slot `k` of a clamped day (`k ≤ 19`) the wall-clock hour is 20, the minute
is `k`, and the second is that of "now". -/
theorem claim_C5_slot_time_amended (curr_date : DateTime) (db : Int)
    (d k : Nat) :
    addMinutes k (addDays (d : Int) (streamStart db curr_date)) =
        specSlotTime curr_date db d k + (secondOf curr_date : Int) ∧
      (k ≤ 19 →
        hourOf (addMinutes k (addDays (d : Int) (streamStart db
          curr_date))) = 20 ∧
        minuteOf (addMinutes k (addDays (d : Int) (streamStart db
          curr_date))) = k ∧
        secondOf (addMinutes k (addDays (d : Int) (streamStart db
          curr_date))) = secondOf curr_date) := by
  constructor
  · simp only [addMinutes, addDays, streamStart, replaceHM20, specSlotTime,
      dayIndex, secondOf, secOfDay]
    push_cast
    ring
  · intro hk
    have hs : secondOf curr_date < 60 := by
      simp only [secondOf, secOfDay]
      omega
    have ht : addMinutes k (addDays (d : Int) (streamStart db curr_date)) =
        20 * 3600 + 60 * (k : Int) + (secondOf curr_date : Int) +
          86400 * (dayIndex curr_date - db + (d : Int)) := by
      simp only [addMinutes, addDays, streamStart, replaceHM20, dayIndex,
        secondOf, secOfDay]
      push_cast
      ring
    have hmod : addMinutes k (addDays (d : Int) (streamStart db
        curr_date)) % 86400 =
        20 * 3600 + 60 * (k : Int) + (secondOf curr_date : Int) := by
      rw [ht, Int.add_mul_emod_self_left]
      exact Int.emod_eq_of_lt (by omega) (by omega)
    refine ⟨?_, ?_, ?_⟩
    · simp only [hourOf, secOfDay, hmod]
      omega
    · simp only [minuteOf, secOfDay, hmod]
      omega
    · simp only [secondOf, secOfDay, hmod]
      omega

/-- Witness for C5 (amended) at "now" = 1970-01-01 00:00:30, `days_before`
= 0, day offset 0, slot 5: the commit falls at 20:05:30 local. -/
theorem claim_C5_slot_time_amended_witness :
    (addMinutes 5 (addDays ((0 : Nat) : Int) (streamStart 0 30)) =
        specSlotTime 30 0 0 5 + (secondOf 30 : Int)) ∧
      hourOf (addMinutes 5 (addDays ((0 : Nat) : Int) (streamStart 0 30))) =
        20 ∧
      minuteOf (addMinutes 5 (addDays ((0 : Nat) : Int) (streamStart 0
        30))) = 5 ∧
      secondOf (addMinutes 5 (addDays ((0 : Nat) : Int) (streamStart 0
        30))) = secondOf 30 :=
  ⟨(claim_C5_slot_time_amended 30 0 0 5).1,
    (claim_C5_slot_time_amended 30 0 0 5).2 (by decide)⟩

/-! ### Parsing the commit message back -/

theorem dropLit_self (l s : Str) : dropLit l (l ++ s) = some s := by
  induction l with
  | nil => rfl
  | cons a as ih => simpa [dropLit] using ih

theorem parseDigit_digit (n : Nat) (h : n ≤ 9) :
    parseDigit (48 + n) = some n := by
  unfold parseDigit
  rw [if_pos (by omega)]
  have hsub : 48 + n - 48 = n := by omega
  rw [hsub]

theorem parse2_pad2 (n : Nat) (h : n < 100) (rest : Str) :
    parse2 (pad2 n ++ rest) = some (n, rest) := by
  have h1 : parseDigit (48 + n / 10) = some (n / 10) :=
    parseDigit_digit _ (by omega)
  have h2 : parseDigit (48 + n % 10) = some (n % 10) :=
    parseDigit_digit _ (by omega)
  have hval : 10 * (n / 10) + n % 10 = n := by omega
  simp [pad2, parse2, h1, h2, hval]

theorem parse4_pad4 (n : Nat) (h : n < 10000) (rest : Str) :
    parse4 (pad4 n ++ rest) = some (n, rest) := by
  have h1 : parse2 (pad2 (n / 100) ++ (pad2 (n % 100) ++ rest)) =
      some (n / 100, pad2 (n % 100) ++ rest) :=
    parse2_pad2 _ (by omega) _
  have h2 : parse2 (pad2 (n % 100) ++ rest) = some (n % 100, rest) :=
    parse2_pad2 _ (by omega) _
  have hval : 100 * (n / 100) + n % 100 = n := by omega
  simp [pad4, parse4, List.append_assoc, h1, h2, hval]

theorem expectByte_self (b : Nat) (rest : Str) :
    expectByte b (b :: rest) = some rest := by
  simp [expectByte]

theorem hourOf_lt (t : DateTime) : hourOf t < 24 := by
  unfold hourOf secOfDay
  omega

theorem minuteOf_lt (t : DateTime) : minuteOf t < 60 := by
  unfold minuteOf secOfDay
  omega

/-- C8: (i) every emitted commit record's message is the formatted
`%Y-%m-%d %H:%M` rendering of the commit's computed wall-clock time (the
record's Unix timestamp plus the run's UTC offset); (ii) parsing such a
message recovers exactly the calendar minute of that time, whenever the
calendar fields are within the printed widths — Python datetimes guarantee
year in `[1, 9999]`, month in `[1, 12]` and day in `[1, 31]`, and years
below 1000 do not arise for Unix-era commit dates. -/
theorem claim_C8_message_roundtrip :
    (∀ (cfg : Config) (cname cemail tzs : Str) (tzoff : Int)
      (curr_date : DateTime) (parent_commit : Option Str) (rng : List Nat),
      ∀ c ∈ builtCommits cfg cname cemail tzs tzoff curr_date parent_commit
        rng, c.msg = contributionMsg (c.timestamp + tzoff)) ∧
      (∀ t : DateTime, 1000 ≤ yearOf t → yearOf t ≤ 9999 → monthOf t < 100 →
        domOf t < 100 →
        parseContribMsg (contributionMsg t) = some (minuteKey t)) := by
  constructor
  · intro cfg cname cemail tzs tzoff curr_date parent_commit rng c hc
    exact (shapeInv_build cfg cname cemail tzs tzoff curr_date parent_commit
      rng c hc).2.2
  · intro t hy1 hy2 hmo hd
    have hyn : (yearOf t).toNat < 10000 := by omega
    have hh : hourOf t < 100 := by
      have := hourOf_lt t
      omega
    have hmi : minuteOf t < 100 := by
      have := minuteOf_lt t
      omega
    have hlast : parse2 (pad2 (minuteOf t)) =
        some (minuteOf t, ([] : Str)) := by
      have := parse2_pad2 (minuteOf t) hmi []
      simpa using this
    unfold contributionMsg parseContribMsg minuteKey
    simp only [List.append_assoc, List.cons_append, List.nil_append,
      dropLit_self, parse4_pad4 _ hyn, expectByte_self, parse2_pad2 _ hmo,
      parse2_pad2 _ hd, parse2_pad2 _ hh, hlast]

/-- Witness for C8 at the concrete time 1700000000 (2023-11-14 22:13:20
local): the message parses back to (2023, 11, 14, 22, 13). -/
theorem claim_C8_message_roundtrip_witness :
    parseContribMsg (contributionMsg 1700000000) =
      some (minuteKey 1700000000) :=
  claim_C8_message_roundtrip.2 1700000000 (by decide) (by decide) (by decide)
    (by decide)

/-! ### Strict monotonicity of the emitted timestamps -/

theorem addMinutes_zero (t : DateTime) : addMinutes 0 t = t := by
  simp [addMinutes]

theorem addMinutes_succ_ts (tzoff : Int) (k : Nat) (day : DateTime) :
    toTimestamp tzoff (addMinutes (k + 1) day) =
      toTimestamp tzoff (addMinutes k day) + 60 := by
  unfold toTimestamp addMinutes
  push_cast
  ring

theorem timesOf_doSlot (cname cemail tzs : Str) (tzoff : Int)
    (day : DateTime) (k : Nat) (st : BuildState) :
    timesOf (doSlot cname cemail tzs tzoff day k st).parts =
      timesOf st.parts ++ [toTimestamp tzoff (addMinutes k day)] := by
  unfold timesOf
  rw [commitsOf_doSlot]
  simp [mkCommit]

theorem sortedBelow_mono (B B' : Int) (h : B ≤ B') (parts : List Record)
    (hs : SortedBelow B parts) : SortedBelow B' parts :=
  ⟨hs.1, fun x hx => lt_of_lt_of_le (hs.2 x hx) h⟩

theorem sortedBelow_doSlot (cname cemail tzs : Str) (tzoff : Int)
    (day : DateTime) (k : Nat) (st : BuildState)
    (hs : SortedBelow (toTimestamp tzoff (addMinutes k day)) st.parts) :
    SortedBelow (toTimestamp tzoff (addMinutes (k + 1) day))
      (doSlot cname cemail tzs tzoff day k st).parts := by
  obtain ⟨hp, hb⟩ := hs
  constructor
  · rw [timesOf_doSlot]
    refine List.pairwise_append.mpr ⟨hp, by simp, ?_⟩
    intro x hx y hy
    rw [List.mem_singleton] at hy
    subst hy
    exact hb x hx
  · rw [timesOf_doSlot, addMinutes_succ_ts]
    intro x hx
    rcases List.mem_append.mp hx with hold | hnew
    · have := hb x hold
      omega
    · rw [List.mem_singleton] at hnew
      subst hnew
      omega

theorem sortedBelow_doSlots (cname cemail tzs : Str) (tzoff : Int)
    (day : DateTime) :
    ∀ (n k : Nat) (st : BuildState),
      SortedBelow (toTimestamp tzoff (addMinutes k day)) st.parts →
      SortedBelow (toTimestamp tzoff (addMinutes (k + n) day))
        (doSlots cname cemail tzs tzoff day k n st).parts := by
  intro n
  induction n with
  | zero => intro k st hs; exact hs
  | succ m ih =>
    intro k st hs
    rw [doSlots_succ]
    have hidx : k + (m + 1) = (k + 1) + m := by omega
    rw [hidx]
    exact ih (k + 1) _ (sortedBelow_doSlot cname cemail tzs tzoff day k st hs)

theorem sortedBelow_doDay (cfg : Config) (cname cemail tzs : Str)
    (tzoff : Int) (start : DateTime) (d : Nat) (st : BuildState)
    (hs : SortedBelow (toTimestamp tzoff (addDays (d : Int) start))
      st.parts) :
    SortedBelow (toTimestamp tzoff (addDays ((d : Int) + 1) start))
      (doDay cfg cname cemail tzs tzoff start d st).parts := by
  have h0 : SortedBelow
      (toTimestamp tzoff (addMinutes 0 (addDays (d : Int) start)))
      ({ st with rng := (scheduleDay cfg (addDays (d : Int) start)
        st.rng).2 } : BuildState).parts := by
    rw [addMinutes_zero]
    exact hs
  have hres := sortedBelow_doSlots cname cemail tzs tzoff
    (addDays (d : Int) start)
    (scheduleDay cfg (addDays (d : Int) start) st.rng).1 0 _ h0
  have hc := scheduleDay_le_20 cfg (addDays (d : Int) start) st.rng
  set c := (scheduleDay cfg (addDays (d : Int) start) st.rng).1 with hcdef
  refine sortedBelow_mono _ _ ?_ _ hres
  unfold toTimestamp addMinutes addDays
  omega

theorem sortedBelow_buildDays (cfg : Config) (cname cemail tzs : Str)
    (tzoff : Int) (start : DateTime) :
    ∀ (n d : Nat) (st : BuildState),
      SortedBelow (toTimestamp tzoff (addDays (d : Int) start)) st.parts →
      SortedBelow (toTimestamp tzoff (addDays ((d : Int) + n) start))
        (buildDays cfg cname cemail tzs tzoff start d n st).parts := by
  intro n
  induction n with
  | zero =>
    intro d st hs
    simpa using hs
  | succ m ih =>
    intro d st hs
    rw [buildDays_succ]
    have hstep := sortedBelow_doDay cfg cname cemail tzs tzoff start d st hs
    have hcast : ((d : Int) + 1) = (((d + 1 : Nat) : Int)) := by push_cast; ring
    rw [hcast] at hstep
    have hres := ih (d + 1) _ hstep
    have hidx : (((d + 1 : Nat) : Int)) + (m : Int) =
        (d : Int) + ((m + 1 : Nat) : Int) := by
      push_cast
      ring
    rw [hidx] at hres
    exact hres

theorem pairwise_build (cfg : Config) (cname cemail tzs : Str) (tzoff : Int)
    (curr_date : DateTime) (parent_commit : Option Str) (rng : List Nat) :
    List.Pairwise (· < ·) (timesOf (builtParts cfg cname cemail tzs tzoff
      curr_date parent_commit rng)) := by
  have h0 : SortedBelow
      (toTimestamp tzoff (addDays ((0 : Nat) : Int)
        (streamStart cfg.days_before curr_date)))
      ([] : List Record) := by
    constructor
    · exact List.Pairwise.nil
    · intro x hx
      simp [timesOf, commitsOf] at hx
  have h := sortedBelow_buildDays cfg cname cemail tzs tzoff
    (streamStart cfg.days_before curr_date)
    (cfg.days_before + cfg.days_after).toNat 0
    { parts := [], mark := 1, parent := parent_commit.map ParentRef.external,
      count := 0, rng := rng } h0
  exact h.1

/-! ### The schedule of the example scenario -/

theorem scheduleDay_wkend (cfg : Config) (day : DateTime) (rng : List Nat)
    (hnw : cfg.no_weekends = true) (hw : 5 ≤ weekday day) :
    scheduleDay cfg day rng = (0, rng) := by
  unfold scheduleDay
  rw [if_pos ⟨hnw, hw⟩]

theorem scheduleDay_freq100 (cfg : Config) (day : DateTime) (rng : List Nat)
    (hfr : cfg.frequency = 100)
    (hwd : ¬(cfg.no_weekends = true ∧ 5 ≤ weekday day)) :
    1 ≤ (scheduleDay cfg day rng).1 ∧
      (scheduleDay cfg day rng).1 ≤ (max 1 (min cfg.max_commits 20)).toNat := by
  have hr := (randint_mem 0 100 (by omega) rng).2
  have hnot : ¬(cfg.frequency < ((randint 0 100 rng).1 : Int)) := by
    rw [hfr]
    omega
  unfold scheduleDay
  rw [if_neg hwd, if_neg hnot]
  exact randint_mem 1 _ (clamp_bounds cfg.max_commits).1 _

theorem scheduleFrom_succ (cfg : Config) (start : DateTime) (d n : Nat)
    (rng : List Nat) :
    scheduleFrom cfg start d (n + 1) rng =
      ((scheduleDay cfg (addDays (d : Int) start) rng).1 ::
        (scheduleFrom cfg start (d + 1) n
          (scheduleDay cfg (addDays (d : Int) start) rng).2).1,
       (scheduleFrom cfg start (d + 1) n
          (scheduleDay cfg (addDays (d : Int) start) rng).2).2) := rfl

theorem scheduleFrom_length (cfg : Config) (start : DateTime) :
    ∀ (n d : Nat) (rng : List Nat),
      (scheduleFrom cfg start d n rng).1.length = n := by
  intro n
  induction n with
  | zero => intro d rng; rfl
  | succ m ih =>
    intro d rng
    rw [scheduleFrom_succ]
    simp [ih]

theorem dayIndex_addDays (j : Int) (t : DateTime) :
    dayIndex (addDays j t) = dayIndex t + j := by
  unfold dayIndex addDays
  rw [Int.add_mul_ediv_left _ _ (by norm_num : (86400 : Int) ≠ 0)]

theorem weekday_addDays (j : Int) (t : DateTime) :
    weekday (addDays j t) = (dayIndex t + j + 3) % 7 := by
  unfold weekday
  rw [dayIndex_addDays]

/-- Per-day bounds of the schedule under `frequency = 100` and
`no_weekends = true`: weekend days roll a zero count, weekdays roll a count
in `[1, max(1, min(max_commits, 20))]`. -/
theorem scheduleFrom_bounds (cfg : Config) (start : DateTime)
    (hfr : cfg.frequency = 100) (hnw : cfg.no_weekends = true) :
    ∀ (n d : Nat) (rng : List Nat) (i : Nat), i < n →
      (5 ≤ weekday (addDays ((d + i : Nat) : Int) start) →
        (scheduleFrom cfg start d n rng).1.getD i 99 = 0) ∧
      (weekday (addDays ((d + i : Nat) : Int) start) < 5 →
        1 ≤ (scheduleFrom cfg start d n rng).1.getD i 99 ∧
          (scheduleFrom cfg start d n rng).1.getD i 99 ≤
            (max 1 (min cfg.max_commits 20)).toNat) := by
  intro n
  induction n with
  | zero => intro d rng i hi; omega
  | succ m ih =>
    intro d rng i hi
    rw [scheduleFrom_succ]
    cases i with
    | zero =>
      simp only [Nat.add_zero, List.getD_cons_zero]
      constructor
      · intro hw
        rw [scheduleDay_wkend cfg _ rng hnw hw]
      · intro hw
        exact scheduleDay_freq100 cfg _ rng hfr (by
          intro hcontra
          omega)
    | succ j =>
      have hj : j < m := by omega
      have hstep := ih (d + 1)
        (scheduleDay cfg (addDays (d : Int) start) rng).2 j hj
      have hidx : d + 1 + j = d + (j + 1) := by omega
      rw [hidx] at hstep
      simpa using hstep

/-! ### The builder count is the sum of the schedule -/

theorem doSlots_rng (cname cemail tzs : Str) (tzoff : Int) (day : DateTime) :
    ∀ (n k : Nat) (st : BuildState),
      (doSlots cname cemail tzs tzoff day k n st).rng = st.rng := by
  intro n
  induction n with
  | zero => intro k st; rfl
  | succ m ih =>
    intro k st
    rw [doSlots_succ]
    rw [ih]
    rfl

theorem doSlots_count (cname cemail tzs : Str) (tzoff : Int)
    (day : DateTime) :
    ∀ (n k : Nat) (st : BuildState),
      (doSlots cname cemail tzs tzoff day k n st).count = st.count + n := by
  intro n
  induction n with
  | zero => intro k st; rfl
  | succ m ih =>
    intro k st
    rw [doSlots_succ, ih]
    show st.count + 1 + m = st.count + (m + 1)
    omega

theorem doDay_count_rng (cfg : Config) (cname cemail tzs : Str)
    (tzoff : Int) (start : DateTime) (d : Nat) (st : BuildState) :
    (doDay cfg cname cemail tzs tzoff start d st).count =
        st.count + (scheduleDay cfg (addDays (d : Int) start) st.rng).1 ∧
      (doDay cfg cname cemail tzs tzoff start d st).rng =
        (scheduleDay cfg (addDays (d : Int) start) st.rng).2 := by
  unfold doDay
  exact ⟨doSlots_count cname cemail tzs tzoff _ _ 0 _,
    doSlots_rng cname cemail tzs tzoff _ _ 0 _⟩

theorem buildDays_schedule (cfg : Config) (cname cemail tzs : Str)
    (tzoff : Int) (start : DateTime) :
    ∀ (n d : Nat) (st : BuildState),
      (buildDays cfg cname cemail tzs tzoff start d n st).count =
        st.count + ((scheduleFrom cfg start d n st.rng).1).sum := by
  intro n
  induction n with
  | zero => intro d st; rfl
  | succ m ih =>
    intro d st
    rw [buildDays_succ, scheduleFrom_succ, ih]
    obtain ⟨hcnt, hrng⟩ := doDay_count_rng cfg cname cemail tzs tzoff start
      d st
    rw [hcnt, hrng]
    simp
    omega

/-- C9: (i) in every produced stream, the commit timestamps in emission
order are strictly increasing (stated as pairwise strict increase, for every
configuration — the per-day clamp to at most 20 commits keeps each day's
minutes below the day length); (ii) the example scenario: the example
configuration starting on a Monday schedules exactly 5 days — the 5
weekdays, indices 0-4 of the 7-day range — each with a count in `[1, 3]`,
weekend indices 5 and 6 scheduled to 0, total commits between 5 and 15, and
the builder emits exactly that total. -/
theorem claim_C9_monotone_and_example :
    (∀ (cfg : Config) (cname cemail tzs : Str) (tzoff : Int)
        (curr_date : DateTime) (parent_commit : Option Str) (rng : List Nat),
      List.Pairwise (· < ·) (timesOf (builtParts cfg cname cemail tzs tzoff
        curr_date parent_commit rng))) ∧
      (∀ (cname cemail tzs : Str) (tzoff : Int) (curr_date : DateTime)
          (parent_commit : Option Str) (rng : List Nat),
        weekday (streamStart 7 curr_date) = 0 →
        (exampleSchedule curr_date rng).length = 7 ∧
          ((exampleSchedule curr_date rng).countP fun c => decide (0 < c)) =
            5 ∧
          (∀ i : Nat, i < 5 →
            1 ≤ (exampleSchedule curr_date rng).getD i 99 ∧
              (exampleSchedule curr_date rng).getD i 99 ≤ 3) ∧
          (exampleSchedule curr_date rng).getD 5 99 = 0 ∧
          (exampleSchedule curr_date rng).getD 6 99 = 0 ∧
          (∀ c ∈ exampleSchedule curr_date rng, c = 0 ∨ (1 ≤ c ∧ c ≤ 3)) ∧
          5 ≤ (exampleSchedule curr_date rng).sum ∧
          (exampleSchedule curr_date rng).sum ≤ 15 ∧
          builtCount exampleCfg cname cemail tzs tzoff curr_date
            parent_commit rng = (exampleSchedule curr_date rng).sum) := by
  constructor
  · intro cfg cname cemail tzs tzoff curr_date parent_commit rng
    exact pairwise_build cfg cname cemail tzs tzoff curr_date parent_commit
      rng
  · intro cname cemail tzs tzoff curr_date parent_commit rng hmon
    unfold weekday at hmon
    have hwd : ∀ i : Nat, i < 7 →
        weekday (addDays ((0 + i : Nat) : Int) (streamStart 7 curr_date)) =
          (i : Int) := by
      intro i hi
      rw [weekday_addDays]
      push_cast
      omega
    have hb := scheduleFrom_bounds exampleCfg (streamStart 7 curr_date)
      rfl rfl 7 0 rng
    have hmax : (max 1 (min exampleCfg.max_commits 20)).toNat = 3 := by
      decide
    have hwk : ∀ i : Nat, i < 5 →
        1 ≤ (scheduleFrom exampleCfg (streamStart 7 curr_date) 0 7
            rng).1.getD i 99 ∧
          (scheduleFrom exampleCfg (streamStart 7 curr_date) 0 7
            rng).1.getD i 99 ≤ 3 := by
      intro i hi
      have h := (hb i (by omega)).2 (by rw [hwd i (by omega)]; omega)
      rw [hmax] at h
      exact h
    have hz5 : (scheduleFrom exampleCfg (streamStart 7 curr_date) 0 7
        rng).1.getD 5 99 = 0 :=
      (hb 5 (by omega)).1 (by rw [hwd 5 (by omega)]; norm_num)
    have hz6 : (scheduleFrom exampleCfg (streamStart 7 curr_date) 0 7
        rng).1.getD 6 99 = 0 :=
      (hb 6 (by omega)).1 (by rw [hwd 6 (by omega)]; norm_num)
    have hlen : (exampleSchedule curr_date rng).length = 7 :=
      scheduleFrom_length exampleCfg (streamStart 7 curr_date) 7 0 rng
    obtain ⟨a, l1, e1⟩ := List.exists_of_length_succ _ hlen
    have hl1 : l1.length = 6 := by
      have := hlen
      rw [e1] at this
      simpa using this
    obtain ⟨b, l2, e2⟩ := List.exists_of_length_succ _ hl1
    have hl2 : l2.length = 5 := by
      rw [e2] at hl1
      simpa using hl1
    obtain ⟨c, l3, e3⟩ := List.exists_of_length_succ _ hl2
    have hl3 : l3.length = 4 := by
      rw [e3] at hl2
      simpa using hl2
    obtain ⟨d, l4, e4⟩ := List.exists_of_length_succ _ hl3
    have hl4 : l4.length = 3 := by
      rw [e4] at hl3
      simpa using hl3
    obtain ⟨e, l5, e5⟩ := List.exists_of_length_succ _ hl4
    have hl5 : l5.length = 2 := by
      rw [e5] at hl4
      simpa using hl4
    obtain ⟨f, l6, e6⟩ := List.exists_of_length_succ _ hl5
    have hl6 : l6.length = 1 := by
      rw [e6] at hl5
      simpa using hl5
    obtain ⟨g, l7, e7⟩ := List.exists_of_length_succ _ hl6
    have hl7 : l7 = [] := by
      rw [e7] at hl6
      simpa using List.length_eq_zero.mp (by simpa using hl6)
    have hcs : exampleSchedule curr_date rng = [a, b, c, d, e, f, g] := by
      rw [e1, e2, e3, e4, e5, e6, e7, hl7]
    have hcs2 : (scheduleFrom exampleCfg (streamStart 7 curr_date) 0 7
        rng).1 = [a, b, c, d, e, f, g] := hcs
    rw [hcs2] at hwk hz5 hz6
    have hva : 1 ≤ a ∧ a ≤ 3 := by simpa using hwk 0 (by omega)
    have hvb : 1 ≤ b ∧ b ≤ 3 := by simpa using hwk 1 (by omega)
    have hvc : 1 ≤ c ∧ c ≤ 3 := by simpa using hwk 2 (by omega)
    have hvd : 1 ≤ d ∧ d ≤ 3 := by simpa using hwk 3 (by omega)
    have hve : 1 ≤ e ∧ e ≤ 3 := by simpa using hwk 4 (by omega)
    have hvf : f = 0 := by simpa using hz5
    have hvg : g = 0 := by simpa using hz6
    subst hvf hvg
    refine ⟨hlen, ?_, ?_, ?_, ?_, ?_, ?_, ?_, ?_⟩
    · rw [hcs]
      have pa : 0 < a := hva.1
      have pb : 0 < b := hvb.1
      have pc : 0 < c := hvc.1
      have pd : 0 < d := hvd.1
      have pe : 0 < e := hve.1
      simp [List.countP_cons, pa, pb, pc, pd, pe]
    · rw [hcs]
      exact hwk
    · rw [hcs]
      exact hz5
    · rw [hcs]
      exact hz6
    · intro x hx
      rw [hcs] at hx
      simp only [List.mem_cons, List.not_mem_nil, or_false] at hx
      rcases hx with rfl | rfl | rfl | rfl | rfl | rfl | rfl
      · right; exact hva
      · right; exact hvb
      · right; exact hvc
      · right; exact hvd
      · right; exact hve
      · left; rfl
      · left; rfl
    · rw [hcs]
      simp only [List.sum_cons, List.sum_nil]
      omega
    · rw [hcs]
      simp only [List.sum_cons, List.sum_nil]
      omega
    · have hsum := buildDays_schedule exampleCfg cname cemail tzs tzoff
        (streamStart exampleCfg.days_before curr_date)
        (exampleCfg.days_before + exampleCfg.days_after).toNat 0
        { parts := [], mark := 1,
          parent := parent_commit.map ParentRef.external, count := 0,
          rng := rng }
      have h8 : builtCount exampleCfg cname cemail tzs tzoff curr_date
          parent_commit rng = 0 + (exampleSchedule curr_date rng).sum :=
        hsum
      omega

/-- Witness for C9: a concrete Monday start ("now" = 1970-01-05 00:00:00,
four days after the Thursday epoch) with an exhausted draw list: the example
schedule is `[1, 1, 1, 1, 1, 0, 0]`, five scheduled weekdays, total 5, and
the builder emits 5 commits. -/
theorem claim_C9_monotone_and_example_witness :
    ((exampleSchedule 345600 []).countP fun c => decide (0 < c)) = 5 ∧
      builtCount exampleCfg [97] [98] [43] 0 345600 none [] =
        (exampleSchedule 345600 []).sum :=
  ⟨((claim_C9_monotone_and_example.2 [97] [98] [43] 0 345600 none []
      (by decide)).2).1,
    ((((((((claim_C9_monotone_and_example.2 [97] [98] [43] 0 345600 none []
      (by decide)).2).2).2).2).2).2).2).2⟩

/-- C10: every commit record of every produced stream targets the branch
reference `refs/heads/main`; the statement quantifies over every parameter
of the generation interface, so no parameter can change the branch. -/
theorem claim_C10_branch_fixed (cfg : Config) (cname cemail tzs : Str)
    (tzoff : Int) (curr_date : DateTime) (parent_commit : Option Str)
    (rng : List Nat) :
    ((builtCommits cfg cname cemail tzs tzoff curr_date parent_commit
        rng).all fun c => c.branch == refsHeadsMain) = true := by
  rw [List.all_eq_true]
  intro c hc
  simpa [beq_iff_eq] using
    (shapeInv_build cfg cname cemail tzs tzoff curr_date parent_commit rng
      c hc).1

end Contribute
